import Mathlib

/-!
Verification of the Memory Lane entry catalog, reconciliation engine and
Dropbox adapter layer.

The definitions below are a shallow embedding of the TypeScript source:

* `src/lib/entries/repository.ts` — the entry catalog over the SQLite table
  `entries` (schema in `src/lib/db/schema.sql`).  The table is modelled as a
  list of `Entry` records plus a fresh-id counter (ids are UUIDs in the
  source; only their uniqueness matters).  SQL `datetime('now')` timestamps
  are modelled by an explicit clock argument `now : Nat`.
* `src/lib/entries/sync.ts` — `syncFromDropbox`, taking the remote listing
  as an explicit argument (the source obtains it from `listMediaFiles`).
* `src/lib/dropbox/files.ts` — media-file classification, the temporary-link
  cache and the narration upload/delete operations.  Remote I/O results are
  passed in as explicit arguments.
-/

namespace MemoryLane

/-- Lowercasing of a string, character by character
(JS `String.prototype.toLowerCase` restricted to the ASCII names used here). -/
def lowerStr (s : String) : String :=
  ⟨s.data.map Char.toLower⟩

/-- JS `s.endsWith(suffix)`. -/
def strEndsWith (s suffix : String) : Bool :=
  List.isSuffixOf suffix.data s.data

/-! ## Entry catalog (`src/lib/entries/repository.ts`, table `entries`) -/

/-- One row of the `entries` table.  `disabled` and `has_narration` are
stored as SQLite integers 0/1 in the source; they are Booleans here.
`position` is a nullable SQLite INTEGER, `created_at`/`updated_at` are
`datetime('now')` texts, modelled as `Nat` instants. -/
structure Entry where
  id : Nat
  dropbox_path : String
  title : Option String
  transcript : Option String
  position : Option Int
  disabled : Bool
  has_narration : Bool
  created_at : Nat
  updated_at : Nat
deriving Repr, DecidableEq

/-- The database state: the `entries` table in insertion order, plus the
fresh-id source (standing in for `uuidv4()`). -/
structure Catalog where
  entries : List Entry
  nextId : Nat
deriving Repr, DecidableEq

/-- Database errors surfaced by the embedded operations.  `uniqueConstraint`
is SQLite's rejection of an INSERT violating `dropbox_path TEXT NOT NULL
UNIQUE`. -/
inductive DbError where
  | uniqueConstraint
deriving Repr, DecidableEq

/-- The `CASE WHEN disabled = 1 THEN 2 WHEN position IS NULL THEN 1 ELSE 0
END` sort key of `getAllEntries`. -/
def tier (e : Entry) : Nat :=
  if e.disabled then 2 else if e.position = none then 1 else 0

/-- Strict comparison of nullable positions under SQLite `ORDER BY position
ASC` (NULLs sort before all values). -/
def ltPos : Option Int → Option Int → Bool
  | none, none => false
  | none, some _ => true
  | some _, none => false
  | some a, some b => decide (a < b)

/-- The total ordering used by `getAllEntries`:
`ORDER BY CASE ... END, position ASC, created_at DESC`. -/
def entryLe (a b : Entry) : Bool :=
  decide (tier a < tier b) ||
    (decide (tier a = tier b) &&
      (ltPos a.position b.position ||
        (decide (a.position = b.position) && decide (b.created_at ≤ a.created_at))))

/-- `entryLe` as a relation, for use with the sorting library. -/
def entryLeRel (a b : Entry) : Prop := entryLe a b = true

instance : DecidableRel entryLeRel := fun a b =>
  inferInstanceAs (Decidable (entryLe a b = true))

/-- `getAllEntries`: `SELECT * FROM entries ORDER BY CASE WHEN disabled = 1
THEN 2 WHEN position IS NULL THEN 1 ELSE 0 END, position ASC, created_at
DESC`.  The ORDER BY is modelled as a stable sort on the same key. -/
def getAllEntries (c : Catalog) : List Entry :=
  List.insertionSort entryLeRel c.entries

/-- `getEntryById`: `SELECT * FROM entries WHERE id = ?`. -/
def getEntryById (id : Nat) (c : Catalog) : Option Entry :=
  c.entries.find? (fun e => e.id = id)

/-- `getEntryByPath`: `SELECT * FROM entries WHERE dropbox_path = ?`. -/
def getEntryByPath (dropboxPath : String) (c : Catalog) : Option Entry :=
  c.entries.find? (fun e => e.dropbox_path = dropboxPath)

/-- The row produced by the INSERT of `createEntry`: only `id` and
`dropbox_path` are supplied, all other columns take their schema defaults
(`position` NULL, `disabled` 0, `has_narration` 0, timestamps
`datetime('now')`). -/
def freshEntry (now : Nat) (dropboxPath : String) (id : Nat) : Entry :=
  { id := id, dropbox_path := dropboxPath, title := none,
    transcript := none, position := none, disabled := false,
    has_narration := false, created_at := now, updated_at := now }

/-- `createEntry`: `INSERT INTO entries (id, dropbox_path) VALUES (?, ?)`.
The INSERT fails with a unique-constraint error when the path is already
present. -/
def createEntry (now : Nat) (dropboxPath : String) (c : Catalog) :
    Except DbError (Entry × Catalog) :=
  if c.entries.any (fun e => e.dropbox_path = dropboxPath) then
    .error .uniqueConstraint
  else
    let e := freshEntry now dropboxPath c.nextId
    .ok (e, { entries := c.entries ++ [e], nextId := c.nextId + 1 })

/-- The dynamic partial-update object accepted by `updateEntry`.  An outer
`none` models a key absent from the JS object; `some none` models a key
present with value `null`. -/
structure EntryUpdates where
  title : Option (Option String)
  transcript : Option (Option String)
  position : Option (Option Int)
  disabled : Option Bool
  has_narration : Option Bool
deriving Repr, DecidableEq

/-- The update object with no keys (`updateEntry(id, {})`). -/
def EntryUpdates.empty : EntryUpdates :=
  { title := none, transcript := none, position := none,
    disabled := none, has_narration := none }

/-- `fields.length === 0` in `updateEntry`: no key is present. -/
def EntryUpdates.isEmpty (u : EntryUpdates) : Bool :=
  u.title.isNone && u.transcript.isNone && u.position.isNone &&
    u.disabled.isNone && u.has_narration.isNone

/-- The update object `{ has_narration: b }` used by `syncFromDropbox`. -/
def narrationUpdate (b : Bool) : EntryUpdates :=
  { title := none, transcript := none, position := none,
    disabled := none, has_narration := some b }

/-- The SET clause of `updateEntry` applied to one row: each present key
overwrites its column, and `updated_at = datetime('now')` is appended. -/
def applyUpdates (now : Nat) (u : EntryUpdates) (e : Entry) : Entry :=
  { e with
    title := match u.title with | some v => v | none => e.title
    transcript := match u.transcript with | some v => v | none => e.transcript
    position := match u.position with | some v => v | none => e.position
    disabled := match u.disabled with | some v => v | none => e.disabled
    has_narration := match u.has_narration with | some v => v | none => e.has_narration
    updated_at := now }

/-- `updateEntry`: with an empty field set it returns `getEntryById(id)` and
performs no write; otherwise it runs
`UPDATE entries SET <fields>, updated_at = datetime('now') WHERE id = ?`
and returns `getEntryById(id)` on the updated table. -/
def updateEntry (now : Nat) (id : Nat) (u : EntryUpdates) (c : Catalog) :
    Option Entry × Catalog :=
  if u.isEmpty then
    (getEntryById id c, c)
  else
    let entries' := c.entries.map (fun e => if e.id = id then applyUpdates now u e else e)
    let c' : Catalog := { c with entries := entries' }
    (getEntryById id c', c')

/-- One `UPDATE entries SET position = ? WHERE id = ?` of the reorder
transaction. -/
def setPosition (pos : Int) (id : Nat) (c : Catalog) : Catalog :=
  { c with entries :=
      c.entries.map (fun e => if e.id = id then { e with position := some pos } else e) }

/-- The body of the reorder transaction: the prepared statement run once per
`(index, id)` pair, in list order. -/
def applyReorder (c : Catalog) : List (Nat × Nat) → Catalog
  | [] => c
  | (i, id) :: rest => applyReorder (setPosition (Int.ofNat i) id c) rest

/-- `reorderEntries`: `ids.forEach((id, index) => updateStmt.run(index, id))`
inside a single transaction.  Note the statement sets only `position`. -/
def reorderEntries (orderedIds : List Nat) (c : Catalog) : Catalog :=
  applyReorder c orderedIds.enum

/-- `deleteEntry`: `DELETE FROM entries WHERE id = ?`, reporting whether a
row was removed. -/
def deleteEntry (id : Nat) (c : Catalog) : Bool × Catalog :=
  let remaining := c.entries.filter (fun e => ¬ e.id = id)
  (decide (remaining.length < c.entries.length), { c with entries := remaining })

/-- `getNextPosition`: `SELECT MAX(position) ... WHERE position IS NOT NULL`,
then `(max ?? -1) + 1`. -/
def getNextPosition (c : Catalog) : Int :=
  (((c.entries.filterMap Entry.position).foldl max (-1)) + 1)

/-! ## Dropbox adapter (`src/lib/dropbox/files.ts`) -/

def NARRATION_SUFFIX : String := ".narration.webm"

def IMAGE_EXTENSIONS : List String := [".jpg", ".jpeg", ".png", ".gif", ".webp"]

def VIDEO_EXTENSIONS : List String := [".mp4", ".mov", ".webm", ".avi"]

/-- `isMediaFile`: lowercases the name, excludes narration files, then
checks the image and video extension lists. -/
def isMediaFile (name : String) : Bool :=
  let lower := lowerStr name
  if strEndsWith lower NARRATION_SUFFIX then
    false
  else
    IMAGE_EXTENSIONS.any (fun ext => strEndsWith lower ext) ||
      VIDEO_EXTENSIONS.any (fun ext => strEndsWith lower ext)

/-- `isVideoFile`. -/
def isVideoFile (name : String) : Bool :=
  VIDEO_EXTENSIONS.any (fun ext => strEndsWith (lowerStr name) ext)

/-- The tag of one Dropbox listing entry
(`files.(File|Folder|Deleted)MetadataReference`). -/
inductive DbxTag where
  | file | folder | deleted
deriving Repr, DecidableEq

/-- One raw Dropbox listing entry as consumed by `listMediaFiles`. -/
structure RawEntry where
  tag : DbxTag
  name : String
  path_lower : String
  path_display : Option String
deriving Repr, DecidableEq

/-- `entry.path_display || entry.path_lower || ''` (JS `||` skips the empty
string as falsy). -/
def displayPath (e : RawEntry) : String :=
  match e.path_display with
  | some s => if s = "" then e.path_lower else s
  | none => e.path_lower

/-- The `DropboxFile` interface produced by `listMediaFiles`. -/
structure DropboxFile where
  path : String
  name : String
  isVideo : Bool
  hasNarration : Bool
deriving Repr, DecidableEq

/-- `listMediaFiles`, applied to the raw entries returned by
`filesListFolder`: collects narration paths, filters to media files, and
computes `hasNarration` by sibling lookup. -/
def listMediaFiles (allEntries : List RawEntry) : List DropboxFile :=
  let narrationPaths :=
    (allEntries.filter
        (fun e => e.tag = DbxTag.file && strEndsWith e.name NARRATION_SUFFIX)).map
      (fun e => e.path_lower)
  (allEntries.filter (fun e => e.tag = DbxTag.file && isMediaFile e.name)).map
    (fun e =>
      { path := displayPath e
        name := e.name
        isVideo := isVideoFile e.name
        hasNarration := narrationPaths.contains (lowerStr (e.path_lower ++ NARRATION_SUFFIX)) })

/-- One value of the module-level `linkCache` map. -/
structure CachedLink where
  link : String
  expiry : Nat
deriving Repr, DecidableEq

/-- The `linkCache : Map<string, { link, expiry }>`, as an association list
with unique keys. -/
def LinkCache := List (String × CachedLink)

/-- `linkCache.get(path)`. -/
def cacheGet (path : String) (m : LinkCache) : Option CachedLink :=
  (List.find? (fun kv => kv.1 = path) m).map (fun kv => kv.2)

/-- `linkCache.set(path, v)`. -/
def cacheSet (path : String) (v : CachedLink) (m : LinkCache) : LinkCache :=
  (path, v) :: List.filter (fun kv => ¬ kv.1 = path) m

/-- `linkCache.delete(path)`. -/
def cacheDelete (path : String) (m : LinkCache) : LinkCache :=
  List.filter (fun kv => ¬ kv.1 = path) m

/-- The 3-hour cache lifetime, in milliseconds. -/
def LINK_CACHE_MS : Nat := 3 * 60 * 60 * 1000

/-- `getTemporaryLink`: serve an unexpired cached link, otherwise mint a
fresh one (`freshLink` is the URL the Dropbox call would return) and cache
it for 3 hours. -/
def getTemporaryLink (now : Nat) (path : String) (freshLink : String)
    (m : LinkCache) : String × LinkCache :=
  match cacheGet path m with
  | some cached =>
    if now < cached.expiry then
      (cached.link, m)
    else
      (freshLink, cacheSet path { link := freshLink, expiry := now + LINK_CACHE_MS } m)
  | none =>
    (freshLink, cacheSet path { link := freshLink, expiry := now + LINK_CACHE_MS } m)

/-- `getNarrationPath` / the `narrationPath` computed by the narration
operations: `mediaPath + NARRATION_SUFFIX`. -/
def getNarrationPath (mediaPath : String) : String :=
  mediaPath ++ NARRATION_SUFFIX

/-- `uploadNarration`'s effect on the link cache: after the `filesUpload`
succeeds, evict the narration path. -/
def uploadNarration (mediaPath : String) (m : LinkCache) : LinkCache :=
  cacheDelete (getNarrationPath mediaPath) m

/-- An error thrown by the remote delete call; `status` is the optional
HTTP-status property inspected by `deleteNarration`. -/
structure RemoteError where
  status : Option Int
deriving Repr, DecidableEq

/-- `deleteNarration`: runs `filesDeleteV2` (its outcome passed in as
`remote`), rethrows an error only when it carries a `status` field other
than 409, and finally evicts the narration path from the link cache. -/
def deleteNarration (mediaPath : String) (remote : Except RemoteError Unit)
    (m : LinkCache) : Except RemoteError LinkCache :=
  match remote with
  | .ok _ => .ok (cacheDelete (getNarrationPath mediaPath) m)
  | .error err =>
    match err.status with
    | some s =>
      if s ≠ 409 then .error err
      else .ok (cacheDelete (getNarrationPath mediaPath) m)
    | none => .ok (cacheDelete (getNarrationPath mediaPath) m)

/-! ## Reconciliation (`src/lib/entries/sync.ts`) -/

/-- The `{ added, removed, unchanged }` counts returned by a pass. -/
structure SyncResult where
  added : Nat
  removed : Nat
  unchanged : Nat
deriving Repr, DecidableEq

/-- One iteration of the first loop of `syncFromDropbox`.  `existingPaths`
is the path set snapshot taken before the loop; the catalog is the live
database. -/
def syncStep (now : Nat) (existingPaths : List String)
    (acc : SyncResult × Catalog) (file : DropboxFile) :
    Except DbError (SyncResult × Catalog) :=
  let res := acc.1
  let c := acc.2
  if existingPaths.contains file.path then
    let c' :=
      match getEntryByPath file.path c with
      | some entry =>
        if entry.has_narration ≠ file.hasNarration then
          (updateEntry now entry.id (narrationUpdate file.hasNarration) c).2
        else c
      | none => c
    .ok ({ res with unchanged := res.unchanged + 1 }, c')
  else
    match createEntry now file.path c with
    | .error err => .error err
    | .ok (entry, c') =>
      let c'' :=
        if file.hasNarration then
          (updateEntry now entry.id (narrationUpdate true) c').2
        else c'
      .ok ({ res with added := res.added + 1 }, c'')

/-- `syncFromDropbox`, with the remote listing passed in (`dropboxFiles`).
The first loop adds new files and corrects narration flags; the second loop
counts local entries whose path is absent remotely, without touching them. -/
def syncFromDropbox (now : Nat) (dropboxFiles : List DropboxFile) (c : Catalog) :
    Except DbError (SyncResult × Catalog) := do
  let existingEntries := getAllEntries c
  let existingPaths := existingEntries.map (fun e => e.dropbox_path)
  let (res, c') ← dropboxFiles.foldlM (syncStep now existingPaths)
    ({ added := 0, removed := 0, unchanged := 0 }, c)
  let removed := existingEntries.countP
    (fun e => ¬ dropboxFiles.any (fun f => f.path = e.dropbox_path))
  return ({ res with removed := removed }, c')

/-! ## Helper lemmas -/

/-- Ending in a suffix is preserved by lowercasing when the suffix is itself
lowercase-invariant character by character. -/
theorem strEndsWith_lowerStr (s suffix : String)
    (hfix : suffix.data.map Char.toLower = suffix.data)
    (h : strEndsWith s suffix = true) : strEndsWith (lowerStr s) suffix = true := by
  unfold strEndsWith at h ⊢
  rw [List.isSuffixOf_iff_suffix] at h ⊢
  have := List.IsSuffix.map Char.toLower h
  rwa [hfix] at this

/-- The narration suffix is lowercase-invariant. -/
theorem narration_suffix_lower :
    NARRATION_SUFFIX.data.map Char.toLower = NARRATION_SUFFIX.data := by decide

/-- Evicting a path removes its cache entry. -/
theorem cacheGet_cacheDelete (p : String) (m : LinkCache) :
    cacheGet p (cacheDelete p m) = none := by
  unfold cacheGet cacheDelete
  rw [List.find?_eq_none.mpr]
  · rfl
  · intro kv hkv
    have := (List.mem_filter.mp hkv).2
    simpa using this

/-- With no cache entry for the path, `getTemporaryLink` returns the freshly
minted link. -/
theorem getTemporaryLink_fresh (now : Nat) (p fresh : String) (m : LinkCache)
    (h : cacheGet p m = none) : (getTemporaryLink now p fresh m).1 = fresh := by
  unfold getTemporaryLink
  rw [h]

/-- Whenever `deleteNarration` succeeds, the state it returns is the cache
with the narration path evicted. -/
theorem deleteNarration_ok_state (mp : String) (remote : Except RemoteError Unit)
    (m m' : LinkCache) (h : deleteNarration mp remote m = .ok m') :
    m' = cacheDelete (getNarrationPath mp) m := by
  cases remote with
  | ok _ => unfold deleteNarration at h; cases h; rfl
  | error err =>
    unfold deleteNarration at h
    dsimp only at h
    cases herr : err.status with
    | none => rw [herr] at h; cases h; rfl
    | some s =>
      rw [herr] at h
      by_cases hs : s = 409
      · simp [hs] at h; exact h.symm
      · simp [hs] at h

/-- Database integrity of a catalog: the PRIMARY KEY on `id`, the UNIQUE
constraint on `dropbox_path`, and freshness of the id source. -/
def WF (c : Catalog) : Prop :=
  (c.entries.map Entry.id).Nodup ∧
  (c.entries.map Entry.dropbox_path).Nodup ∧
  ∀ i ∈ c.entries.map Entry.id, i < c.nextId

/-- All entries stored under a remote file's path carry that file's
narration flag. -/
def pathFlag (c : Catalog) (f : DropboxFile) : Prop :=
  ∀ e ∈ c.entries, e.dropbox_path = f.path → e.has_narration = f.hasNarration

/-- Under the PRIMARY KEY constraint, two stored entries with the same id
are the same row. -/
theorem entry_id_inj {c : Catalog} (hW : WF c) {e1 e2 : Entry}
    (h1 : e1 ∈ c.entries) (h2 : e2 ∈ c.entries) (h : e1.id = e2.id) : e1 = e2 :=
  List.inj_on_of_nodup_map hW.1 h1 h2 h

/-- Under the UNIQUE constraint, two stored entries with the same path are
the same row. -/
theorem entry_path_inj {c : Catalog} (hW : WF c) {e1 e2 : Entry}
    (h1 : e1 ∈ c.entries) (h2 : e2 ∈ c.entries)
    (h : e1.dropbox_path = e2.dropbox_path) : e1 = e2 :=
  List.inj_on_of_nodup_map hW.2.1 h1 h2 h

/-- A successful `getEntryByPath` returns a stored row with that path. -/
theorem getEntryByPath_mem {p : String} {c : Catalog} {e : Entry}
    (h : getEntryByPath p c = some e) : e ∈ c.entries ∧ e.dropbox_path = p := by
  refine ⟨List.mem_of_find?_eq_some h, ?_⟩
  have := List.find?_some h
  simpa using this

/-- `getEntryByPath` succeeds whenever a row with the path exists. -/
theorem getEntryByPath_exists {p : String} {c : Catalog}
    (h : ∃ e ∈ c.entries, e.dropbox_path = p) :
    ∃ ent, getEntryByPath p c = some ent := by
  obtain ⟨e, he, hp⟩ := h
  have : (List.find? (fun e => e.dropbox_path = p) c.entries).isSome := by
    rw [List.find?_isSome]
    exact ⟨e, he, by simpa using hp⟩
  obtain ⟨ent, hent⟩ := Option.isSome_iff_exists.mp this
  exact ⟨ent, hent⟩

/-- With a non-empty field set, `updateEntry` rewrites the table row-wise
at the target id. -/
theorem updateEntry_state (now : Nat) (id : Nat) (u : EntryUpdates) (c : Catalog)
    (h : u.isEmpty = false) :
    ((updateEntry now id u c).2).entries
      = c.entries.map (fun e => if e.id = id then applyUpdates now u e else e) := by
  unfold updateEntry
  rw [if_neg (by rw [h]; exact Bool.false_ne_true)]

/-- `updateEntry` never changes the stored ids. -/
theorem updateEntry_map_id (now : Nat) (id : Nat) (u : EntryUpdates) (c : Catalog) :
    ((updateEntry now id u c).2.entries).map Entry.id = c.entries.map Entry.id := by
  unfold updateEntry
  by_cases h : u.isEmpty = true
  · rw [if_pos h]
  · rw [if_neg h]
    dsimp only
    rw [List.map_map]
    refine List.map_congr_left ?_
    intro e _
    by_cases he : e.id = id
    · rw [Function.comp_apply, if_pos he]; rfl
    · rw [Function.comp_apply, if_neg he]

/-- `updateEntry` never changes the stored paths. -/
theorem updateEntry_map_path (now : Nat) (id : Nat) (u : EntryUpdates) (c : Catalog) :
    ((updateEntry now id u c).2.entries).map Entry.dropbox_path
      = c.entries.map Entry.dropbox_path := by
  unfold updateEntry
  by_cases h : u.isEmpty = true
  · rw [if_pos h]
  · rw [if_neg h]
    dsimp only
    rw [List.map_map]
    refine List.map_congr_left ?_
    intro e _
    by_cases he : e.id = id
    · rw [Function.comp_apply, if_pos he]; rfl
    · rw [Function.comp_apply, if_neg he]

/-- `updateEntry` does not consume ids. -/
theorem updateEntry_nextId (now : Nat) (id : Nat) (u : EntryUpdates) (c : Catalog) :
    (updateEntry now id u c).2.nextId = c.nextId := by
  unfold updateEntry
  by_cases h : u.isEmpty = true
  · rw [if_pos h]
  · rw [if_neg h]

/-- `updateEntry` preserves database integrity. -/
theorem WF_updateEntry (now : Nat) (id : Nat) (u : EntryUpdates) (c : Catalog)
    (hW : WF c) : WF ((updateEntry now id u c).2) := by
  refine ⟨?_, ?_, ?_⟩
  · rw [updateEntry_map_id]; exact hW.1
  · rw [updateEntry_map_path]; exact hW.2.1
  · rw [updateEntry_map_id, updateEntry_nextId]; exact hW.2.2

/-- Characterization of the effect of the `{ has_narration: b }` update used
by the reconciliation pass, targeted at a stored entry `tgt`. -/
theorem narration_update_spec (now : Nat) (b : Bool) (c : Catalog) (hW : WF c)
    (tgt : Entry) (htgt : tgt ∈ c.entries) :
    (∀ e ∈ c.entries, e.id ≠ tgt.id →
      e ∈ ((updateEntry now tgt.id (narrationUpdate b) c).2).entries) ∧
    (∀ e' ∈ ((updateEntry now tgt.id (narrationUpdate b) c).2).entries,
      (e'.dropbox_path = tgt.dropbox_path ∧ e'.has_narration = b) ∨
        (e' ∈ c.entries ∧ e'.id ≠ tgt.id)) := by
  have hstate := updateEntry_state now tgt.id (narrationUpdate b) c rfl
  constructor
  · intro e he hne
    rw [hstate]
    refine List.mem_map.mpr ⟨e, he, ?_⟩
    exact if_neg hne
  · intro e' he'
    rw [hstate] at he'
    obtain ⟨e0, he0, heq⟩ := List.mem_map.mp he'
    by_cases h0 : e0.id = tgt.id
    · left
      have he0tgt : e0 = tgt := entry_id_inj hW he0 htgt h0
      rw [← heq, if_pos h0, he0tgt]
      exact ⟨rfl, rfl⟩
    · right
      rw [← heq, if_neg h0]
      exact ⟨he0, h0⟩

/-- A successful INSERT appends the fresh row; it requires the path to be
absent. -/
theorem createEntry_ok_spec (now : Nat) (p : String) (c : Catalog)
    (hnew : ∀ e ∈ c.entries, e.dropbox_path ≠ p) :
    createEntry now p c = Except.ok (freshEntry now p c.nextId,
      { entries := c.entries ++ [freshEntry now p c.nextId], nextId := c.nextId + 1 }) := by
  unfold createEntry
  rw [if_neg]
  intro hany
  obtain ⟨e, he, hp⟩ := List.any_eq_true.mp hany
  exact hnew e he (by simpa using hp)

/-- A successful INSERT preserves database integrity. -/
theorem WF_createEntry (now : Nat) (p : String) (c : Catalog) (hW : WF c)
    (hnew : ∀ e ∈ c.entries, e.dropbox_path ≠ p) :
    WF { entries := c.entries ++ [freshEntry now p c.nextId], nextId := c.nextId + 1 } := by
  obtain ⟨hid, hpath, hlt⟩ := hW
  refine ⟨?_, ?_, ?_⟩
  · rw [List.map_append, List.nodup_append]
    refine ⟨hid, List.nodup_singleton _, ?_⟩
    intro i hi hj
    simp only [List.map_cons, List.map_nil, List.mem_singleton, freshEntry] at hj
    have := hlt i hi
    omega
  · rw [List.map_append, List.nodup_append]
    refine ⟨hpath, List.nodup_singleton _, ?_⟩
    intro q hq hq'
    simp only [List.map_cons, List.map_nil, List.mem_singleton] at hq'
    obtain ⟨e, he, hpe⟩ := List.mem_map.mp hq
    rw [hq'] at hpe
    exact hnew e he (by rw [hpe]; rfl)
  · intro i hi
    rw [List.map_append] at hi
    show i < c.nextId + 1
    rcases List.mem_append.mp hi with h | h
    · have := hlt i h
      omega
    · simp only [List.map_cons, List.map_nil, List.mem_singleton, freshEntry] at h
      omega

/-- Full characterization of one successful iteration of the first
reconciliation loop: the branch taken is decided by membership of the file's
path in the snapshot `eps`; the step preserves integrity, never deletes an
entry, establishes the narration flag for the processed file and preserves
it for every other path, and bumps exactly one counter. -/
theorem syncStep_ok_spec (now : Nat) (eps : List String) (res : SyncResult)
    (c : Catalog) (g : DropboxFile) (hW : WF c)
    (hin : g.path ∈ eps → ∃ e ∈ c.entries, e.dropbox_path = g.path)
    (hout : g.path ∉ eps → ∀ e ∈ c.entries, e.dropbox_path ≠ g.path) :
    ∃ res' c', syncStep now eps (res, c) g = .ok (res', c') ∧
      WF c' ∧
      (∀ e' ∈ c'.entries, e'.dropbox_path ∈ c.entries.map Entry.dropbox_path ∨
        e'.dropbox_path = g.path) ∧
      (∀ e ∈ c.entries, e.dropbox_path ≠ g.path → e ∈ c'.entries) ∧
      pathFlag c' g ∧
      (∃ e ∈ c'.entries, e.dropbox_path = g.path) ∧
      (∀ f : DropboxFile, f.path ≠ g.path → pathFlag c f → pathFlag c' f) ∧
      res'.added = res.added + (if g.path ∈ eps then 0 else 1) ∧
      res'.unchanged = res.unchanged + (if g.path ∈ eps then 1 else 0) ∧
      res'.removed = res.removed := by
  by_cases hmem : g.path ∈ eps
  · -- unchanged branch
    have hcont : eps.contains g.path = true := List.elem_iff.mpr hmem
    obtain ⟨ent, hfind⟩ := getEntryByPath_exists (hin hmem)
    obtain ⟨hent, hentp⟩ := getEntryByPath_mem hfind
    by_cases hflag : ent.has_narration = g.hasNarration
    · refine ⟨{ res with unchanged := res.unchanged + 1 }, c, ?_, hW, ?_, ?_, ?_, ?_, ?_, ?_, ?_, ?_⟩
      · simp only [syncStep, hcont, if_true, hfind]
        rw [if_neg (not_not_intro hflag)]
      · intro e' he'
        exact Or.inl (List.mem_map.mpr ⟨e', he', rfl⟩)
      · intro e he _
        exact he
      · intro e he hp
        have : e = ent := entry_path_inj hW he hent (by rw [hp, hentp])
        rw [this, hflag]
      · exact ⟨ent, hent, hentp⟩
      · intro f _ hf
        exact hf
      · simp [hmem]
      · simp [hmem]
      · rfl
    · refine ⟨{ res with unchanged := res.unchanged + 1 },
        (updateEntry now ent.id (narrationUpdate g.hasNarration) c).2, ?_, ?_, ?_, ?_, ?_, ?_, ?_, ?_, ?_, ?_⟩
      · simp only [syncStep, hcont, if_true, hfind]
        rw [if_pos hflag]
      · exact WF_updateEntry _ _ _ _ hW
      · intro e' he'
        left
        rw [← updateEntry_map_path now ent.id (narrationUpdate g.hasNarration) c]
        exact List.mem_map.mpr ⟨e', he', rfl⟩
      · intro e he hp
        have hne : e.id ≠ ent.id := by
          intro hcon
          have : e = ent := entry_id_inj hW he hent hcon
          exact hp (by rw [this, hentp])
        exact (narration_update_spec now g.hasNarration c hW ent hent).1 e he hne
      · intro e' he' hp
        rcases (narration_update_spec now g.hasNarration c hW ent hent).2 e' he' with
          ⟨_, hb⟩ | ⟨he'c, hne⟩
        · exact hb
        · have : e' = ent := entry_path_inj hW he'c hent (by rw [hp, hentp])
          exact absurd (by rw [this]) hne
      · refine ⟨applyUpdates now (narrationUpdate g.hasNarration) ent, ?_, hentp⟩
        rw [updateEntry_state now ent.id (narrationUpdate g.hasNarration) c rfl]
        refine List.mem_map.mpr ⟨ent, hent, ?_⟩
        exact if_pos rfl
      · intro f hfne hf e' he' hp
        rcases (narration_update_spec now g.hasNarration c hW ent hent).2 e' he' with
          ⟨hpath, _⟩ | ⟨he'c, _⟩
        · rw [hp] at hpath
          exact absurd (hpath.trans hentp) hfne
        · exact hf e' he'c hp
      · simp [hmem]
      · simp [hmem]
      · rfl
  · -- added branch
    have hcont : eps.contains g.path = false := by
      rw [← Bool.not_eq_true]
      intro h
      exact hmem (List.elem_iff.mp h)
    have hnone : ∀ e ∈ c.entries, e.dropbox_path ≠ g.path := hout hmem
    have hcreate := createEntry_ok_spec now g.path c hnone
    have hWF1 := WF_createEntry now g.path c hW hnone
    have hnew1 : freshEntry now g.path c.nextId ∈
        c.entries ++ [freshEntry now g.path c.nextId] :=
      List.mem_append_right _ (List.mem_singleton.mpr rfl)
    by_cases hnarr : g.hasNarration = true
    · refine ⟨{ res with added := res.added + 1 },
        (updateEntry now c.nextId (narrationUpdate true)
          { entries := c.entries ++ [freshEntry now g.path c.nextId],
            nextId := c.nextId + 1 }).2, ?_, ?_, ?_, ?_, ?_, ?_, ?_, ?_, ?_, ?_⟩
      · simp only [syncStep, hcont, Bool.false_eq_true, if_false, hcreate]
        rw [if_pos hnarr]
        rfl
      · exact WF_updateEntry _ _ _ _ hWF1
      · intro e' he'
        rcases (narration_update_spec now true _ hWF1 _ hnew1).2 e' he' with
          ⟨hpath, _⟩ | ⟨he'c, _⟩
        · exact Or.inr hpath
        · rcases List.mem_append.mp he'c with h | h
          · exact Or.inl (List.mem_map.mpr ⟨e', h, rfl⟩)
          · exact Or.inr (by rw [List.mem_singleton.mp h]; rfl)
      · intro e he hp
        have hidne : e.id ≠ (freshEntry now g.path c.nextId).id := by
          have := hW.2.2 e.id (List.mem_map.mpr ⟨e, he, rfl⟩)
          show e.id ≠ c.nextId
          omega
        exact (narration_update_spec now true _ hWF1 _ hnew1).1 e
          (List.mem_append_left _ he) hidne
      · intro e' he' hp
        rcases (narration_update_spec now true _ hWF1 _ hnew1).2 e' he' with
          ⟨_, hb⟩ | ⟨he'c, hne⟩
        · rw [hb, hnarr]
        · rcases List.mem_append.mp he'c with h | h
          · exact absurd hp (hnone e' h)
          · exact absurd (by rw [List.mem_singleton.mp h]) hne
      · refine ⟨applyUpdates now (narrationUpdate true) (freshEntry now g.path c.nextId),
          ?_, rfl⟩
        rw [updateEntry_state now c.nextId (narrationUpdate true) _ rfl]
        refine List.mem_map.mpr ⟨freshEntry now g.path c.nextId, hnew1, ?_⟩
        exact if_pos rfl
      · intro f hfne hf e' he' hp
        rcases (narration_update_spec now true _ hWF1 _ hnew1).2 e' he' with
          ⟨hpath, _⟩ | ⟨he'c, _⟩
        · rw [hp] at hpath
          exact absurd hpath hfne
        · rcases List.mem_append.mp he'c with h | h
          · exact hf e' h hp
          · rw [List.mem_singleton.mp h] at hp
            exact absurd hp.symm hfne
      · simp [hmem]
      · simp [hmem]
      · rfl
    · refine ⟨{ res with added := res.added + 1 },
        { entries := c.entries ++ [freshEntry now g.path c.nextId],
          nextId := c.nextId + 1 }, ?_, hWF1, ?_, ?_, ?_, ?_, ?_, ?_, ?_, ?_⟩
      · simp only [syncStep, hcont, Bool.false_eq_true, if_false, hcreate]
        rw [if_neg hnarr]
      · intro e' he'
        rcases List.mem_append.mp he' with h | h
        · exact Or.inl (List.mem_map.mpr ⟨e', h, rfl⟩)
        · exact Or.inr (by rw [List.mem_singleton.mp h]; rfl)
      · intro e he _
        exact List.mem_append_left _ he
      · intro e' he' hp
        rcases List.mem_append.mp he' with h | h
        · exact absurd hp (hnone e' h)
        · rw [List.mem_singleton.mp h]
          show false = g.hasNarration
          rw [Bool.eq_false_iff.mpr hnarr]
      · exact ⟨freshEntry now g.path c.nextId, hnew1, rfl⟩
      · intro f hfne hf e' he' hp
        rcases List.mem_append.mp he' with h | h
        · exact hf e' h hp
        · rw [List.mem_singleton.mp h] at hp
          exact absurd hp.symm hfne
      · simp [hmem]
      · simp [hmem]
      · rfl

/-- Invariant of the whole first reconciliation loop, by induction over the
remaining files.  Starting from an integral catalog in which every snapshot
path is present and no remaining new file's path is stored yet, the loop
succeeds; it never deletes an entry, leaves untouched every entry whose path
matches no remaining file, ends with every processed file's narration flag
faithfully stored, keeps every remaining path present, and adds one to
`added` per file absent from the snapshot and one to `unchanged` per file
present in it. -/
theorem syncFold_spec (now : Nat) (eps : List String) :
    ∀ (todo : List DropboxFile) (res : SyncResult) (c : Catalog),
    WF c →
    (todo.map (fun f => f.path)).Nodup →
    (∀ p ∈ eps, ∃ e ∈ c.entries, e.dropbox_path = p) →
    (∀ g ∈ todo, g.path ∉ eps → ∀ e ∈ c.entries, e.dropbox_path ≠ g.path) →
    ∃ res' c', todo.foldlM (syncStep now eps) (res, c) = .ok (res', c') ∧
      WF c' ∧
      (∀ e ∈ c.entries, (∀ g ∈ todo, e.dropbox_path ≠ g.path) → e ∈ c'.entries) ∧
      (∀ f ∈ todo, pathFlag c' f) ∧
      (∀ f ∈ todo, ∃ e ∈ c'.entries, e.dropbox_path = f.path) ∧
      (∀ f : DropboxFile, f.path ∉ todo.map (fun x => x.path) →
        pathFlag c f → pathFlag c' f) ∧
      (∀ p, (∃ e ∈ c.entries, e.dropbox_path = p) →
        ∃ e ∈ c'.entries, e.dropbox_path = p) ∧
      res'.added = res.added + (todo.filter (fun g => g.path ∉ eps)).length ∧
      res'.unchanged = res.unchanged + (todo.filter (fun g => g.path ∈ eps)).length ∧
      res'.removed = res.removed := by
  intro todo
  induction todo with
  | nil =>
    intro res c hW _ _ _
    refine ⟨res, c, rfl, hW, ?_, ?_, ?_, ?_, ?_, by simp, by simp, rfl⟩
    · intro e he _; exact he
    · intro f hf; cases hf
    · intro f hf; cases hf
    · intro f _ hf; exact hf
    · intro p hp; exact hp
  | cons g rest ih =>
    intro res c hW hnd hpresent hnew
    have hnd' := hnd
    rw [List.map_cons, List.nodup_cons] at hnd'
    have hndg : g.path ∉ rest.map (fun f => f.path) := hnd'.1
    have hndrest : (rest.map (fun f => f.path)).Nodup := hnd'.2
    obtain ⟨res1, c1, hstep, hW1, hpaths1, hframe1, hflagg, hexg, hpres1, hadd1, hunch1,
      hrem1⟩ :=
      syncStep_ok_spec now eps res c g hW
        (fun hm => hpresent g.path hm)
        (fun hm => hnew g (List.mem_cons_self g rest) hm)
    have hpresent1 : ∀ p ∈ eps, ∃ e ∈ c1.entries, e.dropbox_path = p := by
      intro p hp
      obtain ⟨e, he, hep⟩ := hpresent p hp
      by_cases hpg : p = g.path
      · obtain ⟨e', he', hep'⟩ := hexg
        exact ⟨e', he', by rw [hep', hpg]⟩
      · exact ⟨e, hframe1 e he (by rw [hep]; exact hpg), hep⟩
    have hnew1 : ∀ h ∈ rest, h.path ∉ eps → ∀ e ∈ c1.entries, e.dropbox_path ≠ h.path := by
      intro h hh hhe e he1
      rcases hpaths1 e he1 with hold | hg
      · obtain ⟨e0, he0, hpe0⟩ := List.mem_map.mp hold
        intro hcon
        exact hnew h (List.mem_cons_of_mem g hh) hhe e0 he0 (by rw [hpe0, hcon])
      · intro hcon
        rw [hcon] at hg
        exact hndg (List.mem_map.mpr ⟨h, hh, hg⟩)
    obtain ⟨res', c', hfold, hW', hframe', hflags', hex', hpres', hmono', hadd', hunch',
      hrem'⟩ := ih res1 c1 hW1 hndrest hpresent1 hnew1
    have hmono1 : ∀ p, (∃ e ∈ c.entries, e.dropbox_path = p) →
        ∃ e ∈ c1.entries, e.dropbox_path = p := by
      intro p hp
      obtain ⟨e, he, hep⟩ := hp
      by_cases hpg : p = g.path
      · obtain ⟨e', he', hep'⟩ := hexg
        exact ⟨e', he', by rw [hep', hpg]⟩
      · exact ⟨e, hframe1 e he (by rw [hep]; exact hpg), hep⟩
    refine ⟨res', c', ?_, hW', ?_, ?_, ?_, ?_, ?_, ?_, ?_, ?_⟩
    · rw [List.foldlM_cons, hstep]
      exact hfold
    · intro e he hgs
      refine hframe' e (hframe1 e he (hgs g (List.mem_cons_self g rest))) ?_
      intro h hh
      exact hgs h (List.mem_cons_of_mem g hh)
    · intro f hf
      rcases List.mem_cons.mp hf with hfg | hfr
      · subst hfg
        exact hpres' f hndg hflagg
      · exact hflags' f hfr
    · intro f hf
      rcases List.mem_cons.mp hf with hfg | hfr
      · subst hfg
        exact hmono' f.path hexg
      · exact hex' f hfr
    · intro f hfp hflag
      have h1 : f.path ≠ g.path := by
        intro hcon
        exact hfp (by simp [hcon])
      have h2 : f.path ∉ rest.map (fun x => x.path) := by
        intro hcon
        exact hfp (by simp; right; simpa using hcon)
      exact hpres' f h2 (hpres1 f h1 hflag)
    · intro p hp
      exact hmono' p (hmono1 p hp)
    · rw [hadd', hadd1, List.filter_cons]
      by_cases hg : g.path ∈ eps
      · simp [hg]
      · simp [hg]
        omega
    · rw [hunch', hunch1, List.filter_cons]
      by_cases hg : g.path ∈ eps
      · simp [hg]
        omega
      · simp [hg]
    · rw [hrem', hrem1]

/-- `getAllEntries` returns the stored rows in some order. -/
theorem getAllEntries_perm (c : Catalog) : (getAllEntries c).Perm c.entries :=
  List.perm_insertionSort entryLeRel c.entries

/-- A path is in the snapshot taken by `syncFromDropbox` exactly when some
stored row carries it. -/
theorem mem_snapshot_iff (c : Catalog) (p : String) :
    p ∈ (getAllEntries c).map (fun e => e.dropbox_path) ↔
      ∃ e ∈ c.entries, e.dropbox_path = p := by
  rw [List.mem_map]
  constructor
  · rintro ⟨e, he, hp⟩
    exact ⟨e, (getAllEntries_perm c).mem_iff.mp he, hp⟩
  · rintro ⟨e, he, hp⟩
    exact ⟨e, (getAllEntries_perm c).mem_iff.mpr he, hp⟩

/-- The `removed` figure of a pass: local entries whose path is absent from
the fetched listing. -/
def removedCount (files : List DropboxFile) (c : Catalog) : Nat :=
  (getAllEntries c).countP (fun e => ¬ files.any (fun f => f.path = e.dropbox_path))

/-- Overwrite the `removed` field of a result. -/
def withRemoved (r : SyncResult) (n : Nat) : SyncResult :=
  { r with removed := n }

/-- Unfolding of `syncFromDropbox` over a successful first loop. -/
theorem syncFromDropbox_eq (now : Nat) (files : List DropboxFile) (c : Catalog)
    (res1 : SyncResult) (c1 : Catalog)
    (hfold : files.foldlM
        (syncStep now ((getAllEntries c).map (fun e => e.dropbox_path)))
        ({ added := 0, removed := 0, unchanged := 0 }, c) = .ok (res1, c1)) :
    syncFromDropbox now files c
      = .ok (withRemoved res1 (removedCount files c), c1) := by
  unfold syncFromDropbox
  dsimp only
  rw [hfold]
  rfl

/-- Everything a successful `syncFromDropbox` run guarantees, in terms of
the initial catalog: integrity is preserved, no entry is deleted, local
narration flags end equal to the freshly observed remote values, every
listed path ends present, and the three counters have their intended
values. -/
theorem syncFromDropbox_run (now : Nat) (files : List DropboxFile) (c : Catalog)
    (res : SyncResult) (c' : Catalog) (hW : WF c)
    (hnd : (files.map (fun f => f.path)).Nodup)
    (hok : syncFromDropbox now files c = .ok (res, c')) :
    WF c' ∧
    (∀ e ∈ c.entries, (∀ g ∈ files, e.dropbox_path ≠ g.path) → e ∈ c'.entries) ∧
    (∀ f ∈ files, pathFlag c' f) ∧
    (∀ f ∈ files, ∃ e ∈ c'.entries, e.dropbox_path = f.path) ∧
    res.added = (files.filter
      (fun g => g.path ∉ c.entries.map Entry.dropbox_path)).length ∧
    res.unchanged = (files.filter
      (fun g => g.path ∈ c.entries.map Entry.dropbox_path)).length ∧
    res.removed = c.entries.countP
      (fun e => ¬ files.any (fun f => f.path = e.dropbox_path)) := by
  obtain ⟨res1, c1, hfold, hW1, hframe, hflags, hex, _, _, hadd, hunch, hrem⟩ :=
    syncFold_spec now ((getAllEntries c).map (fun e => e.dropbox_path)) files
      { added := 0, removed := 0, unchanged := 0 } c hW hnd
      (fun p hp => (mem_snapshot_iff c p).mp hp)
      (fun g _ hg e he hcon =>
        hg ((mem_snapshot_iff c g.path).mpr ⟨e, he, hcon⟩))
  have hsync := syncFromDropbox_eq now files c res1 c1 hfold
  rw [hok] at hsync
  have hres : res = withRemoved res1 (removedCount files c) := by
    have := (Except.ok.injEq _ _).mp hsync
    exact (Prod.mk.injEq _ _ _ _).mp this |>.1
  have hc : c' = c1 := by
    have := (Except.ok.injEq _ _).mp hsync
    exact (Prod.mk.injEq _ _ _ _).mp this |>.2
  subst hc
  refine ⟨hW1, hframe, hflags, hex, ?_, ?_, ?_⟩
  · rw [hres]
    show res1.added = _
    rw [hadd, Nat.zero_add]
    congr 1
    refine List.filter_congr ?_
    intro g _
    refine decide_eq_decide.mpr ?_
    rw [mem_snapshot_iff]
    constructor
    · intro hno hmem
      obtain ⟨e, he, hp⟩ := List.mem_map.mp hmem
      exact hno ⟨e, he, hp⟩
    · intro hno hmem
      obtain ⟨e, he, hp⟩ := hmem
      exact hno (List.mem_map.mpr ⟨e, he, hp⟩)
  · rw [hres]
    show res1.unchanged = _
    rw [hunch, Nat.zero_add]
    congr 1
    refine List.filter_congr ?_
    intro g _
    refine decide_eq_decide.mpr ?_
    rw [mem_snapshot_iff]
    constructor
    · rintro ⟨e, he, hp⟩
      exact List.mem_map.mpr ⟨e, he, hp⟩
    · intro hmem
      obtain ⟨e, he, hp⟩ := List.mem_map.mp hmem
      exact ⟨e, he, hp⟩
  · rw [hres]
    show removedCount files c = _
    unfold removedCount
    exact (getAllEntries_perm c).countP_eq _

/-- `ltPos` is transitive. -/
theorem ltPos_trans (x y z : Option Int) (h1 : ltPos x y = true)
    (h2 : ltPos y z = true) : ltPos x z = true := by
  cases x <;> cases y <;> cases z <;> simp_all [ltPos]
  omega

/-- `ltPos` is trichotomous. -/
theorem ltPos_trichotomy (x y : Option Int) :
    ltPos x y = true ∨ x = y ∨ ltPos y x = true := by
  cases x <;> cases y <;> simp [ltPos]
  omega

/-- The `getAllEntries` ordering is transitive. -/
theorem entryLe_trans (a b c : Entry) (h1 : entryLeRel a b) (h2 : entryLeRel b c) :
    entryLeRel a c := by
  simp only [entryLeRel, entryLe, Bool.or_eq_true, Bool.and_eq_true,
    decide_eq_true_eq] at h1 h2 ⊢
  rcases h1 with h1 | ⟨ht1, h1⟩
  · rcases h2 with h2 | ⟨ht2, h2⟩
    · exact Or.inl (by omega)
    · exact Or.inl (by omega)
  · rcases h2 with h2 | ⟨ht2, h2⟩
    · exact Or.inl (by omega)
    · refine Or.inr ⟨by omega, ?_⟩
      rcases h1 with hp1 | ⟨hpe1, hc1⟩
      · rcases h2 with hp2 | ⟨hpe2, hc2⟩
        · exact Or.inl (ltPos_trans _ _ _ hp1 hp2)
        · exact Or.inl (by rw [← hpe2]; exact hp1)
      · rcases h2 with hp2 | ⟨hpe2, hc2⟩
        · exact Or.inl (by rw [hpe1]; exact hp2)
        · exact Or.inr ⟨hpe1.trans hpe2, le_trans hc2 hc1⟩

/-- The `getAllEntries` ordering is total. -/
theorem entryLe_total (a b : Entry) : entryLeRel a b ∨ entryLeRel b a := by
  simp only [entryLeRel, entryLe, Bool.or_eq_true, Bool.and_eq_true,
    decide_eq_true_eq]
  rcases Nat.lt_trichotomy (tier a) (tier b) with h | h | h
  · exact Or.inl (Or.inl h)
  · rcases ltPos_trichotomy a.position b.position with hp | hp | hp
    · exact Or.inl (Or.inr ⟨h, Or.inl hp⟩)
    · by_cases hc : b.created_at ≤ a.created_at
      · exact Or.inl (Or.inr ⟨h, Or.inr ⟨hp, hc⟩⟩)
      · exact Or.inr (Or.inr ⟨h.symm, Or.inr ⟨hp.symm, by omega⟩⟩)
    · exact Or.inr (Or.inr ⟨h.symm, Or.inl hp⟩)
  · exact Or.inr (Or.inl h)

instance : IsTrans Entry entryLeRel := ⟨entryLe_trans⟩

instance : IsTotal Entry entryLeRel := ⟨entryLe_total⟩

/-- An entry not targeted by a positional UPDATE is untouched. -/
theorem setPosition_mem_other (pos : Int) (id : Nat) (c : Catalog) (e : Entry)
    (he : e ∈ c.entries) (hid : e.id ≠ id) : e ∈ (setPosition pos id c).entries := by
  unfold setPosition
  exact List.mem_map.mpr ⟨e, he, by rw [if_neg hid]⟩

/-- The entry targeted by a positional UPDATE gets exactly the new
position. -/
theorem setPosition_mem_target (pos : Int) (id : Nat) (c : Catalog) (e : Entry)
    (he : e ∈ c.entries) (hid : e.id = id) :
    { e with position := some pos } ∈ (setPosition pos id c).entries := by
  unfold setPosition
  exact List.mem_map.mpr ⟨e, he, by rw [if_pos hid]⟩

/-- An entry whose id appears in none of the reorder pairs survives the
whole transaction unchanged. -/
theorem applyReorder_mem_other (pairs : List (Nat × Nat)) (c : Catalog) (e : Entry)
    (he : e ∈ c.entries) (hid : e.id ∉ pairs.map Prod.snd) :
    e ∈ (applyReorder c pairs).entries := by
  induction pairs generalizing c with
  | nil => exact he
  | cons p rest ih =>
    obtain ⟨i, id⟩ := p
    simp only [List.map_cons, List.mem_cons] at hid
    push_neg at hid
    exact ih (setPosition (Int.ofNat i) id c) (setPosition_mem_other _ _ _ _ he hid.1) hid.2

/-- With pairwise-distinct target ids, the entry paired with index `i` ends
the transaction holding position `i`. -/
theorem applyReorder_mem_target (pairs : List (Nat × Nat)) (c : Catalog) (e : Entry)
    (i : Nat) (hnd : (pairs.map Prod.snd).Nodup) (he : e ∈ c.entries)
    (hp : (i, e.id) ∈ pairs) :
    { e with position := some (Int.ofNat i) } ∈ (applyReorder c pairs).entries := by
  induction pairs generalizing c with
  | nil => cases hp
  | cons p rest ih =>
    obtain ⟨j, jd⟩ := p
    simp only [List.map_cons, List.nodup_cons] at hnd
    rcases List.mem_cons.mp hp with heq | hrest
    · have hi : i = j := congrArg Prod.fst heq
      have hjd : e.id = jd := congrArg Prod.snd heq
      subst hi
      have hmem := setPosition_mem_target (Int.ofNat i) jd c e he hjd
      refine applyReorder_mem_other rest _ _ hmem ?_
      simpa [hjd] using hnd.1
    · have hne : e.id ≠ jd := by
        intro hcon
        exact hnd.1 (hcon ▸ List.mem_map.mpr ⟨(i, e.id), hrest, rfl⟩)
      exact ih _ hnd.2 (setPosition_mem_other _ _ _ _ he hne) hrest

/-- A positional UPDATE leaves every `updated_at` unchanged. -/
theorem setPosition_updated_at (pos : Int) (id : Nat) (c : Catalog) :
    ((setPosition pos id c).entries).map Entry.updated_at
      = c.entries.map Entry.updated_at := by
  unfold setPosition
  rw [List.map_map]
  refine List.map_congr_left ?_
  intro e _
  by_cases h : e.id = id <;> simp [h]

/-- The reorder transaction leaves every `updated_at` unchanged. -/
theorem applyReorder_updated_at (pairs : List (Nat × Nat)) (c : Catalog) :
    ((applyReorder c pairs).entries).map Entry.updated_at
      = c.entries.map Entry.updated_at := by
  induction pairs generalizing c with
  | nil => rfl
  | cons p rest ih =>
    obtain ⟨i, id⟩ := p
    exact (ih (setPosition (Int.ofNat i) id c)).trans (setPosition_updated_at _ _ _)

/-! ## Claim theorems -/

/-- A sample entry used to instantiate witnesses. -/
def sampleEntry : Entry :=
  { id := 0, dropbox_path := "/a.jpg", title := none, transcript := none,
    position := none, disabled := false, has_narration := false,
    created_at := 1, updated_at := 1 }

/-- A one-entry catalog used to instantiate witnesses. -/
def sampleCatalog : Catalog := { entries := [sampleEntry], nextId := 1 }

/-- A raw photo listing entry for witnesses. -/
def sampleRawPhoto : RawEntry :=
  { tag := DbxTag.file, name := "a.jpg", path_lower := "/a.jpg",
    path_display := some "/a.jpg" }

/-- The narration sibling of `sampleRawPhoto`. -/
def sampleRawNarration : RawEntry :=
  { tag := DbxTag.file, name := "a.jpg.narration.webm",
    path_lower := "/a.jpg.narration.webm",
    path_display := some "/a.jpg.narration.webm" }

/-- The `DropboxFile` that `listMediaFiles` produces for `sampleRawPhoto`. -/
def samplePhotoFile : DropboxFile :=
  { path := "/a.jpg", name := "a.jpg", isVideo := false, hasNarration := true }

/-- C7: creating an entry whose `dropbox_path` is already in the catalog
fails with the unique-constraint (Conflict) error; since the failing INSERT
produces no new state, the catalog is unchanged and still holds exactly one
entry with that path. -/
theorem createEntry_duplicate_conflict (now : Nat) (p : String) (c : Catalog)
    (h : c.entries.countP (fun e => e.dropbox_path = p) = 1) :
    createEntry now p c = Except.error DbError.uniqueConstraint ∧
    c.entries.countP (fun e => e.dropbox_path = p) = 1 := by
  refine ⟨?_, h⟩
  have hex : c.entries.any (fun e => decide (e.dropbox_path = p)) = true := by
    have hpos : 0 < c.entries.countP (fun e => e.dropbox_path = p) := by omega
    rw [List.countP_pos_iff] at hpos
    obtain ⟨e, he, hp⟩ := hpos
    exact List.any_eq_true.mpr ⟨e, he, hp⟩
  unfold createEntry
  rw [if_pos hex]

/-- C7 witness: on a concrete one-entry catalog, re-creating `/a.jpg`
fails with Conflict and the catalog still has exactly one such row. -/
theorem createEntry_duplicate_conflict_witness :
    createEntry 5 "/a.jpg" sampleCatalog = Except.error DbError.uniqueConstraint ∧
    sampleCatalog.entries.countP (fun e => e.dropbox_path = "/a.jpg") = 1 :=
  createEntry_duplicate_conflict 5 "/a.jpg" sampleCatalog (by decide)

/-- C8: after `uploadNarration` or a completed `deleteNarration`, the link
cache holds no entry for the media path's narration path, so the next
`getTemporaryLink` for that path returns a freshly minted link rather than
a previously cached URL. -/
theorem narration_write_evicts_link (mediaPath freshLink : String) (now : Nat)
    (m m' : LinkCache) (remote : Except RemoteError Unit)
    (hdel : deleteNarration mediaPath remote m = .ok m') :
    cacheGet (getNarrationPath mediaPath) (uploadNarration mediaPath m) = none ∧
    (getTemporaryLink now (getNarrationPath mediaPath) freshLink
      (uploadNarration mediaPath m)).1 = freshLink ∧
    cacheGet (getNarrationPath mediaPath) m' = none ∧
    (getTemporaryLink now (getNarrationPath mediaPath) freshLink m').1 = freshLink := by
  have hup : cacheGet (getNarrationPath mediaPath) (uploadNarration mediaPath m) = none :=
    cacheGet_cacheDelete _ _
  have hm' := deleteNarration_ok_state mediaPath remote m m' hdel
  have hdelget : cacheGet (getNarrationPath mediaPath) m' = none := by
    rw [hm']; exact cacheGet_cacheDelete _ _
  exact ⟨hup, getTemporaryLink_fresh now _ freshLink _ hup, hdelget,
    getTemporaryLink_fresh now _ freshLink _ hdelget⟩

/-- C8 witness: concrete cache holding a link for `/a.jpg.narration.webm`;
after upload/delete eviction the next request returns the fresh link. -/
theorem narration_write_evicts_link_witness :
    cacheGet (getNarrationPath "/a.jpg")
      (uploadNarration "/a.jpg" [("/a.jpg.narration.webm",
        { link := "https://old", expiry := 100 })]) = none ∧
    (getTemporaryLink 0 (getNarrationPath "/a.jpg") "https://fresh"
      (uploadNarration "/a.jpg" [("/a.jpg.narration.webm",
        { link := "https://old", expiry := 100 })])).1 = "https://fresh" ∧
    cacheGet (getNarrationPath "/a.jpg") [] = none ∧
    (getTemporaryLink 0 (getNarrationPath "/a.jpg") "https://fresh" []).1 = "https://fresh" :=
  narration_write_evicts_link "/a.jpg" "https://fresh" 0
    [("/a.jpg.narration.webm", { link := "https://old", expiry := 100 })] []
    (Except.ok ()) rfl

/-- C9 counterexample: a remote failure that carries no `status` field is
swallowed — `deleteNarration` reports success instead of propagating the
error, contradicting the claim that any failure other than "does not
exist" is propagated. -/
theorem deleteNarration_statusless_swallowed :
    deleteNarration "/a.jpg" (Except.error { status := none }) [] = Except.ok [] ∧
    ¬ ∃ err, deleteNarration "/a.jpg" (Except.error { status := none }) []
        = Except.error err := by
  constructor
  · rfl
  · rintro ⟨err, herr⟩
    simp [deleteNarration] at herr

/-- C9 amended: `deleteNarration` succeeds (evicting the cached link) when
the remote delete succeeds, when the remote store reports status 409
("does not exist"), and also when the failure carries no `status` field;
only a failure with a status other than 409 is propagated. -/
theorem deleteNarration_error_cases (mp : String) (m : LinkCache) (err : RemoteError) :
    deleteNarration mp (Except.ok ()) m
      = Except.ok (cacheDelete (getNarrationPath mp) m) ∧
    (err.status = some 409 →
      deleteNarration mp (Except.error err) m
        = Except.ok (cacheDelete (getNarrationPath mp) m)) ∧
    (err.status = none →
      deleteNarration mp (Except.error err) m
        = Except.ok (cacheDelete (getNarrationPath mp) m)) ∧
    (∀ s : Int, err.status = some s → s ≠ 409 →
      deleteNarration mp (Except.error err) m = Except.error err) := by
  refine ⟨rfl, ?_, ?_, ?_⟩
  · intro h; unfold deleteNarration; dsimp only; rw [h]; simp
  · intro h; unfold deleteNarration; dsimp only; rw [h]
  · intro s hs hne; unfold deleteNarration; dsimp only; rw [hs]; simp [hne]

/-- C9 amended witness: the 409 case succeeds on a concrete input. -/
theorem deleteNarration_error_cases_witness :
    deleteNarration "/a.jpg" (Except.ok ()) []
      = Except.ok (cacheDelete (getNarrationPath "/a.jpg") []) ∧
    deleteNarration "/a.jpg" (Except.error { status := some 409 }) []
      = Except.ok (cacheDelete (getNarrationPath "/a.jpg") []) ∧
    deleteNarration "/a.jpg" (Except.error { status := some 500 }) []
      = Except.error { status := some 500 } := by
  have h := deleteNarration_error_cases "/a.jpg" [] { status := some 409 }
  have h' := deleteNarration_error_cases "/a.jpg" [] { status := some 500 }
  exact ⟨h.1, h.2.1 rfl, h'.2.2.2 500 rfl (by decide)⟩

/-- C10: a name ending in `.narration.webm` is never classified as a media
file, and no file returned by `listMediaFiles` has a name ending in the
narration suffix (so a narration object never reaches reconciliation). -/
theorem narration_excluded_from_media (name : String)
    (hname : strEndsWith name NARRATION_SUFFIX = true)
    (entries : List RawEntry) (f : DropboxFile) (hf : f ∈ listMediaFiles entries) :
    isMediaFile name = false ∧ strEndsWith f.name NARRATION_SUFFIX = false := by
  have key : ∀ n : String, strEndsWith n NARRATION_SUFFIX = true →
      isMediaFile n = false := by
    intro n hn
    unfold isMediaFile
    rw [if_pos (strEndsWith_lowerStr n NARRATION_SUFFIX narration_suffix_lower hn)]
  refine ⟨key name hname, ?_⟩
  unfold listMediaFiles at hf
  obtain ⟨e, he, hfe⟩ := List.mem_map.mp hf
  have hmedia : isMediaFile e.name = true := by
    have hc := (List.mem_filter.mp he).2
    simp only [Bool.and_eq_true] at hc
    exact hc.2
  have hfname : f.name = e.name := by rw [← hfe]
  rw [hfname]
  cases hend : strEndsWith e.name NARRATION_SUFFIX with
  | false => rfl
  | true => rw [key e.name hend] at hmedia; cases hmedia

/-- A disabled, unplaced entry: created at 1 but updated last (at 10). -/
def disabledOldCreated : Entry :=
  { id := 1, dropbox_path := "/d1.jpg", title := none, transcript := none,
    position := none, disabled := true, has_narration := false,
    created_at := 1, updated_at := 10 }

/-- A disabled, unplaced entry: created at 2 but updated first (at 5). -/
def disabledNewCreated : Entry :=
  { id := 2, dropbox_path := "/d2.jpg", title := none, transcript := none,
    position := none, disabled := true, has_narration := false,
    created_at := 2, updated_at := 5 }

/-- The two-entry catalog exhibiting the `getAllEntries` disabled-tier
ordering. -/
def disabledPairCatalog : Catalog :=
  { entries := [disabledOldCreated, disabledNewCreated], nextId := 3 }

/-- C3 counterexample: both entries are disabled, yet `getAllEntries` puts
the one with the *smaller* `updated_at` first (it orders the disabled tier
by `created_at` descending, not by `updated_at` descending as claimed). -/
theorem getAllEntries_disabled_not_by_updated_at :
    getAllEntries disabledPairCatalog = [disabledNewCreated, disabledOldCreated] ∧
    disabledOldCreated.disabled = true ∧ disabledNewCreated.disabled = true ∧
    disabledNewCreated.updated_at < disabledOldCreated.updated_at := by
  refine ⟨?_, rfl, rfl, by decide⟩
  decide

/-- C3 amended: `getAllEntries` returns a permutation of the table sorted
by tier (active entries first, then staging, then disabled), and within a
tier by `position` ascending (NULL first) with ties broken by `created_at`
descending.  In particular active entries come first in `position`
ascending order and staging entries follow in `created_at` descending
order, but the disabled tier is ordered by `position` then `created_at`
descending — not by `updated_at`. -/
theorem getAllEntries_three_tier_order (c : Catalog) :
    (getAllEntries c).Perm c.entries ∧
    List.Pairwise (fun a b =>
      tier a < tier b ∨ (tier a = tier b ∧
        (ltPos a.position b.position = true ∨
          (a.position = b.position ∧ b.created_at ≤ a.created_at))))
      (getAllEntries c) := by
  constructor
  · exact List.perm_insertionSort entryLeRel c.entries
  · have hs := List.sorted_insertionSort entryLeRel c.entries
    refine List.Pairwise.imp ?_ hs
    intro a b hab
    simpa only [entryLeRel, entryLe, Bool.or_eq_true, Bool.and_eq_true,
      decide_eq_true_eq] using hab

/-- C1 counterexample: with a duplicated id in `orderedIds` the claim "the
entry with id `orderedIds[i]` ends with position `i` for every index `i`"
fails — for `[0, 0]` the single entry ends with position 1, not position 0
as index 0 demands (the last occurrence wins). -/
theorem reorder_duplicate_ids_cex :
    ¬ (∀ i, (hi : i < ([0, 0] : List Nat).length) → ∀ e ∈ sampleCatalog.entries,
        e.id = List.get [0, 0] ⟨i, hi⟩ →
        { e with position := some (Int.ofNat i) }
          ∈ (reorderEntries [0, 0] sampleCatalog).entries) := by
  intro h
  have := h 0 (by decide) sampleEntry (by decide) (by decide)
  exact absurd this (by decide)

/-- C1 amended: provided no id appears twice in `orderedIds`, `reorderEntries`
sets the position of the entry with id `orderedIds[i]` to `i` for every
index `i`, leaves every entry whose id is not listed completely unchanged,
and the empty list is a no-op.  (With duplicate ids the last occurrence
wins.) -/
theorem reorderEntries_assigns_indices (ids : List Nat) (c : Catalog)
    (hnd : ids.Nodup) :
    (∀ i, (hi : i < ids.length) → ∀ e ∈ c.entries, e.id = ids.get ⟨i, hi⟩ →
      { e with position := some (Int.ofNat i) } ∈ (reorderEntries ids c).entries) ∧
    (∀ e ∈ c.entries, e.id ∉ ids → e ∈ (reorderEntries ids c).entries) ∧
    reorderEntries [] c = c := by
  refine ⟨?_, ?_, rfl⟩
  · intro i hi e he hid
    have hlen : i < ids.enum.length := by simpa using hi
    have hget : ids.enum[i] = (i, ids[i]) := List.getElem_enum ids i hlen
    have hmem : (i, e.id) ∈ ids.enum := by
      rw [List.get_eq_getElem] at hid
      rw [hid, ← hget]
      exact List.getElem_mem hlen
    have hnd' : (ids.enum.map Prod.snd).Nodup := by
      rw [List.enum_map_snd]; exact hnd
    exact applyReorder_mem_target ids.enum c e i hnd' he hmem
  · intro e he hid
    refine applyReorder_mem_other ids.enum c e he ?_
    rw [List.enum_map_snd]; exact hid

/-- C1 amended witness: reordering the one-entry catalog by `[0]` gives the
entry position 0; the empty reorder is the identity. -/
theorem reorderEntries_assigns_indices_witness :
    { sampleEntry with position := some (Int.ofNat 0) }
      ∈ (reorderEntries [0] sampleCatalog).entries ∧
    reorderEntries [] sampleCatalog = sampleCatalog := by
  have h := reorderEntries_assigns_indices [0] sampleCatalog (by decide)
  exact ⟨h.1 0 (by decide) sampleEntry (by decide) (by decide), h.2.2⟩

/-- C6 counterexample: `reorderEntries` mutates `position` (a stored field)
without advancing `updated_at` — the affected entry keeps its old
timestamp. -/
theorem reorder_keeps_updated_at_cex :
    (getEntryById 0 (reorderEntries [0] sampleCatalog)).map Entry.updated_at
      = some sampleEntry.updated_at ∧
    (getEntryById 0 (reorderEntries [0] sampleCatalog)).map Entry.position
      = some (some 0) ∧
    sampleEntry.position ≠ some 0 := by
  refine ⟨?_, ?_, by decide⟩ <;> decide

/-- C6 amended: a non-empty `updateEntry` stamps the affected entry's
`updated_at` with the current clock (hence strictly newer whenever the
clock has advanced past the stored value), but `reorderEntries` changes
only positions and leaves every `updated_at` unchanged. -/
theorem mutation_timestamp_behavior (now : Nat) (id : Nat) (u : EntryUpdates)
    (c : Catalog) (hne : u.isEmpty = false) :
    (∀ e ∈ ((updateEntry now id u c).2).entries, e.id = id → e.updated_at = now) ∧
    (∀ ids : List Nat, ((reorderEntries ids c).entries).map Entry.updated_at
      = c.entries.map Entry.updated_at) := by
  constructor
  · intro e he hid
    unfold updateEntry at he
    rw [if_neg (by rw [hne]; exact Bool.false_ne_true)] at he
    obtain ⟨e0, _, heq⟩ := List.mem_map.mp he
    by_cases h0 : e0.id = id
    · rw [if_pos h0] at heq
      rw [← heq]
      rfl
    · rw [if_neg h0] at heq
      rw [← heq] at hid
      exact absurd hid h0
  · intro ids
    exact applyReorder_updated_at ids.enum c

/-- C6 amended witness: updating the narration flag at clock 7 stamps
`updated_at = 7`; any reorder leaves the timestamps of `sampleCatalog`
unchanged. -/
theorem mutation_timestamp_behavior_witness :
    (∀ e ∈ ((updateEntry 7 0 (narrationUpdate true) sampleCatalog).2).entries,
      e.id = 0 → e.updated_at = 7) ∧
    (∀ ids : List Nat, ((reorderEntries ids sampleCatalog).entries).map Entry.updated_at
      = sampleCatalog.entries.map Entry.updated_at) :=
  mutation_timestamp_behavior 7 0 (narrationUpdate true) sampleCatalog (by decide)

instance {ε α : Type} [DecidableEq ε] [DecidableEq α] : DecidableEq (Except ε α) :=
  fun a b =>
    match a, b with
    | .error e1, .error e2 =>
      if h : e1 = e2 then .isTrue (by rw [h])
      else .isFalse (fun hc => by cases hc; exact h rfl)
    | .error _, .ok _ => .isFalse (fun hc => by cases hc)
    | .ok _, .error _ => .isFalse (fun hc => by cases hc)
    | .ok a1, .ok a2 =>
      if h : a1 = a2 then .isTrue (by rw [h])
      else .isFalse (fun hc => by cases hc; exact h rfl)

/-- The empty catalog. -/
def emptyCatalog : Catalog := { entries := [], nextId := 0 }

/-- The entry produced by syncing `samplePhotoFile` into the empty catalog
at clock 0. -/
def syncedEntry : Entry :=
  { id := 0, dropbox_path := "/a.jpg", title := none, transcript := none,
    position := none, disabled := false, has_narration := true,
    created_at := 0, updated_at := 0 }

/-- The catalog after that sync. -/
def syncedCatalog : Catalog := { entries := [syncedEntry], nextId := 1 }

/-- The counts of that sync. -/
def syncedResult : SyncResult := { added := 1, removed := 0, unchanged := 0 }

/-- The counts of syncing an empty listing against `sampleCatalog`. -/
def removedOnlyResult : SyncResult := { added := 0, removed := 1, unchanged := 0 }

/-- C2: after a completed pass, every entry stored under a listed file's
path — whether it pre-existed (its disagreeing flag having been updated) or
was created during the pass — carries exactly the narration flag observed
in the fresh listing, and files whose path already had a local entry are
all counted in the `unchanged` bucket. -/
theorem syncFromDropbox_narration_flags (now : Nat) (files : List DropboxFile)
    (c : Catalog) (res : SyncResult) (c' : Catalog) (hW : WF c)
    (hnd : (files.map (fun f => f.path)).Nodup)
    (hok : syncFromDropbox now files c = .ok (res, c')) :
    (∀ f ∈ files, ∀ e ∈ c'.entries, e.dropbox_path = f.path →
      e.has_narration = f.hasNarration) ∧
    res.unchanged = (files.filter
      (fun g => g.path ∈ c.entries.map Entry.dropbox_path)).length := by
  obtain ⟨_, _, hflags, _, _, hunch, _⟩ :=
    syncFromDropbox_run now files c res c' hW hnd hok
  exact ⟨fun f hf => hflags f hf, hunch⟩

/-- C2 witness: syncing one narrated photo into the empty catalog creates
its entry with `has_narration = true`. -/
theorem syncFromDropbox_narration_flags_witness :
    (∀ f ∈ ([samplePhotoFile] : List DropboxFile), ∀ e ∈ syncedCatalog.entries,
      e.dropbox_path = f.path → e.has_narration = f.hasNarration) ∧
    syncedResult.unchanged = (([samplePhotoFile] : List DropboxFile).filter
      (fun g => g.path ∈ emptyCatalog.entries.map Entry.dropbox_path)).length :=
  by
  have hW : WF emptyCatalog := ⟨by decide, by decide, by decide⟩
  have hnd : (([samplePhotoFile] : List DropboxFile).map (fun f => f.path)).Nodup := by
    decide
  have hok : syncFromDropbox 0 [samplePhotoFile] emptyCatalog
      = .ok (syncedResult, syncedCatalog) := by decide
  exact syncFromDropbox_narration_flags 0 [samplePhotoFile] emptyCatalog
    syncedResult syncedCatalog hW hnd hok

/-- C4: re-running the pass against the same listing, after a completed
run, succeeds and reports `added = 0`. -/
theorem syncFromDropbox_idempotent_added (now now2 : Nat)
    (files : List DropboxFile) (c : Catalog) (res : SyncResult) (c' : Catalog)
    (hW : WF c) (hnd : (files.map (fun f => f.path)).Nodup)
    (hok : syncFromDropbox now files c = .ok (res, c')) :
    ∃ res2 c'', syncFromDropbox now2 files c' = .ok (res2, c'') ∧
      res2.added = 0 := by
  obtain ⟨hW', _, _, hex, _, _, _⟩ :=
    syncFromDropbox_run now files c res c' hW hnd hok
  obtain ⟨res1, c1, hfold, _, _, _, _, _, _, hadd, _, _⟩ :=
    syncFold_spec now2 ((getAllEntries c').map (fun e => e.dropbox_path)) files
      { added := 0, removed := 0, unchanged := 0 } c' hW' hnd
      (fun p hp => (mem_snapshot_iff c' p).mp hp)
      (fun g hg hne => absurd ((mem_snapshot_iff c' g.path).mpr (hex g hg)) hne)
  refine ⟨withRemoved res1 (removedCount files c'), c1,
    syncFromDropbox_eq now2 files c' res1 c1 hfold, ?_⟩
  show res1.added = 0
  rw [hadd, Nat.zero_add]
  have hnil : files.filter
      (fun g => decide (g.path ∉ (getAllEntries c').map (fun e => e.dropbox_path)))
        = [] := by
    rw [List.filter_eq_nil_iff]
    intro g hg
    simp only [decide_eq_true_eq, Decidable.not_not]
    exact (mem_snapshot_iff c' g.path).mpr (hex g hg)
  rw [hnil]
  rfl

/-- C4 witness: after syncing the photo once, a second pass over the same
listing reports `added = 0`. -/
theorem syncFromDropbox_idempotent_added_witness :
    ∃ res2 c'', syncFromDropbox 1 [samplePhotoFile] syncedCatalog
      = .ok (res2, c'') ∧ res2.added = 0 :=
  by
  have hW : WF emptyCatalog := ⟨by decide, by decide, by decide⟩
  have hnd : (([samplePhotoFile] : List DropboxFile).map (fun f => f.path)).Nodup := by
    decide
  have hok : syncFromDropbox 0 [samplePhotoFile] emptyCatalog
      = .ok (syncedResult, syncedCatalog) := by decide
  exact syncFromDropbox_idempotent_added 0 1 [samplePhotoFile] emptyCatalog
    syncedResult syncedCatalog hW hnd hok

/-- C5: a completed pass counts one `removed` per local entry whose path is
absent from the listing, and takes no destructive action — every such entry
is still stored afterwards with all of its fields unchanged. -/
theorem syncFromDropbox_removed_is_count_only (now : Nat)
    (files : List DropboxFile) (c : Catalog) (res : SyncResult) (c' : Catalog)
    (hW : WF c) (hnd : (files.map (fun f => f.path)).Nodup)
    (hok : syncFromDropbox now files c = .ok (res, c')) :
    res.removed = c.entries.countP
      (fun e => ¬ files.any (fun f => f.path = e.dropbox_path)) ∧
    ∀ e ∈ c.entries, (∀ f ∈ files, f.path ≠ e.dropbox_path) → e ∈ c'.entries := by
  obtain ⟨_, hframe, _, _, _, _, hrem⟩ :=
    syncFromDropbox_run now files c res c' hW hnd hok
  refine ⟨hrem, ?_⟩
  intro e he hf
  exact hframe e he (fun g hg hcon => hf g hg hcon.symm)

/-- C5 witness: syncing an empty listing against the one-entry catalog
reports `removed = 1` and leaves the entry untouched. -/
theorem syncFromDropbox_removed_is_count_only_witness :
    removedOnlyResult.removed = sampleCatalog.entries.countP
      (fun e => ¬ ([] : List DropboxFile).any (fun f => f.path = e.dropbox_path)) ∧
    ∀ e ∈ sampleCatalog.entries,
      (∀ f ∈ ([] : List DropboxFile), f.path ≠ e.dropbox_path) →
        e ∈ sampleCatalog.entries :=
  by
  have hW : WF sampleCatalog := ⟨by decide, by decide, by decide⟩
  exact syncFromDropbox_removed_is_count_only 3 [] sampleCatalog
    removedOnlyResult sampleCatalog hW (by decide) (by decide)

/-- C10 witness: `x.narration.webm` is not media; the listing of one photo
plus its narration sibling returns only the photo. -/
theorem narration_excluded_from_media_witness :
    strEndsWith "x.narration.webm" NARRATION_SUFFIX = true ∧
    isMediaFile "x.narration.webm" = false ∧
    strEndsWith samplePhotoFile.name NARRATION_SUFFIX = false := by
  have hmem : samplePhotoFile ∈ listMediaFiles [sampleRawPhoto, sampleRawNarration] := by
    decide
  have h := narration_excluded_from_media "x.narration.webm" (by decide) _ _ hmem
  exact ⟨by decide, h.1, h.2⟩

end MemoryLane
